import Mathlib

/-!
Verification of the build-time utility scripts of the Dual_display_billboard
repository: the PNG-to-RGB565 image encoder
(`tools/png_to_splash_header_converter.py`) and the web-asset bundler
(`tools/minify.py`).  Each Python function is embedded shallowly as an
executable Lean definition; machine integers are `Nat` (Python integers are
unbounded, and all bit manipulation in the scripts is on non-negative
values).
-/

/-! ## Generic helpers: hexadecimal formatting (Python `format(n, '0kX')`) -/

/-- One uppercase hexadecimal digit, as printed by Python's `%X` format. -/
def hexDigit (d : Nat) : Char :=
  if d < 10 then Char.ofNat (48 + d) else Char.ofNat (55 + d)

/-- Hexadecimal digits of `n`, least significant first (empty for 0);
structurally recursive on a fuel bound so that it evaluates by kernel
reduction.  `fuel ≥ n` suffices since `n / 16 < n` for positive `n`. -/
def toHexRevAux (fuel n : Nat) : List Char :=
  match fuel, n with
  | _, 0 => []
  | 0, _ => []
  | fuel + 1, n => hexDigit (n % 16) :: toHexRevAux fuel (n / 16)

/-- Hexadecimal digits of `n`, least significant first (empty for 0). -/
def toHexRev (n : Nat) : List Char := toHexRevAux n n

/-- Python `f"{n:0wX}"`: uppercase hex, zero-padded to at least `w` digits. -/
def hexPad (w n : Nat) : String :=
  let ds := (toHexRev n).reverse
  String.mk (List.replicate (w - ds.length) ('0')) ++ String.mk ds

/-- Python `f"0x{n:04X}"`, as used for RGB565 pixel values. -/
def hex4 (n : Nat) : String := ("0x") ++ hexPad 4 n

/-- Python `f"0x{b:02X}"`, as used for asset bytes. -/
def hex2 (b : Nat) : String := ("0x") ++ hexPad 2 b

/-- Python `sep.join(parts)`. -/
def joinSep (sep : String) : List String → String
  | [] => ("")
  | [x] => x
  | x :: xs => x ++ sep ++ joinSep sep xs

/-! ## `png_to_splash_header_converter.py` -/

/-- `rgb888_to_rgb565` from `tools/png_to_splash_header_converter.py`:
convert 8-bit RGB to the packed 16-bit RGB565 value
`(r>>3 & 0x1F) << 11 | (g>>2 & 0x3F) << 5 | (b>>3 & 0x1F)`. -/
def rgb888_to_rgb565 (r g b : Nat) : Nat :=
  let r5 := (r >>> 3) &&& 0x1F
  let g6 := (g >>> 2) &&& 0x3F
  let b5 := (b >>> 3) &&& 0x1F
  (r5 <<< 11) ||| (g6 <<< 5) ||| b5

/-- `detect_display_type`: auto-detect display type from image dimensions. -/
def detect_display_type (width height : Nat) : String :=
  if width = 80 ∧ height = 160 then ("ST7735")
  else if width = 240 ∧ height = 240 then ("ST7789")
  else if width = 160 ∧ height = 80 then ("ST7735_ROTATED")
  else ("CUSTOM")

/-- The `expected_dims` dictionary inside `convert_png_to_header`;
`none` models a display type absent from the dictionary. -/
def expected_dims (displayType : String) : Option (List (Nat × Nat)) :=
  if displayType = "ST7735" then some [(80, 160), (160, 80)]
  else if displayType = "ST7789" then some [(240, 240)]
  else if displayType = "ST7735_ROTATED" then some [(160, 80)]
  else if displayType = "CUSTOM" then some []
  else none

/-- The dimension-validation test of `convert_png_to_header`
(`if display_type in expected_dims and expected_dims[display_type]:
  if (width, height) not in expected_dims[display_type]: print warning`):
`true` iff the mismatch warning is printed.  The warning only prints;
it never interrupts the conversion. -/
def dimensionWarning (width height : Nat) (displayType : String) : Bool :=
  match expected_dims displayType with
  | some dims => !dims.isEmpty && !(dims.contains (width, height))
  | none => false

/-- Per-pixel RGB565 conversion of the pixel list, in row-major order
(the loop body `rgb565 = rgb888_to_rgb565(r, g, b)` over `image.getdata()`;
pixels of an RGB-mode image are (r,g,b) triples). -/
def splashValues (pixels : List (Nat × Nat × Nat)) : List Nat :=
  pixels.map (fun p => rgb888_to_rgb565 p.1 p.2.1 p.2.2)

/-- The text written for the pixel at (0-based) index `i` of `n` total:
optional line indent, the hex value, a `", "` separator unless it is the
final pixel, and a newline after every 8th value. -/
def pixelPiece (n i v : Nat) : String :=
  (if i % 8 = 0 then ("  ") else ("")) ++ hex4 v ++
    (if i < n - 1 then (", ") else ("")) ++
    (if (i + 1) % 8 = 0 then ("\n") else (""))

/-- The pixel-writing loop of `convert_png_to_header`
(`for i, pixel in enumerate(pixels): ...`), starting at index `i`. -/
def emitGo (n i : Nat) : List Nat → String
  | [] => ("")
  | v :: rest => pixelPiece n i v ++ emitGo n (i + 1) rest

/-- The complete pixel-data text: the loop over all values followed by the
fix-up newline `if total_pixels % pixels_per_line != 0: f.write("\n")`. -/
def emitPixelData (vals : List Nat) : String :=
  emitGo vals.length 0 vals ++ (if vals.length % 8 ≠ 0 then ("\n") else (""))

/-- One rendered line of the pixel array: two-space indent, the values
joined by `", "`, and — for a non-final line — the separator `", "` that
the loop writes after the line's last value, before the newline. -/
def hexLine (c : List Nat) (isLast : Bool) : String :=
  ("  ") ++ joinSep (", ") (c.map hex4) ++ (if isLast then ("\n") else (", \n"))

/-- Line-structured (chunked) rendering of the pixel data: lines of exactly
8 values, the final line holding the remaining 1–8 values with no
separator after its last value.  `emitPixelData` is proved equal to it. -/
def emitPixelDataChunks (l : List Nat) : String :=
  if h : l = [] then ("")
  else if l.length ≤ 8 then hexLine l true
  else hexLine (l.take 8) false ++ emitPixelDataChunks (l.drop 8)
termination_by l.length
decreasing_by
  simp only [List.length_drop]
  have : l.length ≠ 0 := fun hl => h (List.eq_nil_of_length_eq_zero hl)
  omega

/-- The leading comment block written by `convert_png_to_header`. -/
def headerComment (inputBase displayType : String) (w h totalBytes : Nat) : String :=
  ("/*\n * Splash screen color bitmap header file\n * Generated from ") ++
    inputBase ++ ("\n * Target display: ") ++ displayType ++
    ("\n * Image size: ") ++ toString w ++ ("x") ++ toString h ++
    (" pixels\n * RGB565 color bitmap (") ++ toString w ++ ("x") ++
    toString h ++ (", ") ++ toString totalBytes ++
    (" bytes)\n * Generated with png_to_splash_header_converter.py\n */\n\n")

/-- The include-guard and include lines of the generated header. -/
def guardText : String :=
  ("#ifndef SPLASH_SCREEN_H\n#define SPLASH_SCREEN_H\n\n#include <Arduino.h>\n\n")

/-- The three dimension macros (`SPLASH_WIDTH`, `SPLASH_HEIGHT`,
`SPLASH_SIZE`) written by `convert_png_to_header`. -/
def macroSection (displayType : String) (w h totalBytes : Nat) : String :=
  ("// Bitmap dimensions for ") ++ displayType ++
    ("\n#define SPLASH_WIDTH  ") ++ toString w ++
    ("\n#define SPLASH_HEIGHT ") ++ toString h ++
    ("\n#define SPLASH_SIZE   ") ++ toString totalBytes ++ ("\n\n")

/-- The bitmap-array introduction lines and opening brace. -/
def bitmapIntro (displayType : String) (w h : Nat) : String :=
  ("// Splash screen color bitmap data (RGB565)\n// Compatible with ") ++
    displayType ++ (" (") ++ toString w ++ ("x") ++ toString h ++
    (")\nconst uint16_t epd_bitmap_[] PROGMEM = ") ++ ("\x7b\n")

/-- The array/header closing text written after the pixel data. -/
def closingText : String := ("\x7d;\n\n#endif // SPLASH_SCREEN_H\n")

/-- `convert_png_to_header`, as the full text written to the output header.
The image has already been loaded and normalised to RGB mode: it is the
triple (width, height, row-major pixel list).  `displayTypeArg` is the
optional CLI display type (`None` means auto-detect). -/
def convert_png_to_header (inputBase : String) (displayTypeArg : Option String)
    (w h : Nat) (pixels : List (Nat × Nat × Nat)) : String :=
  let displayType := match displayTypeArg with
    | none => detect_display_type w h
    | some dt => dt
  let totalBytes := pixels.length * 2
  headerComment inputBase displayType w h totalBytes ++ guardText ++
    macroSection displayType w h totalBytes ++ bitmapIntro displayType w h ++
    emitPixelData (splashValues pixels) ++ closingText

/-- A run of the image encoder against a file system on which the output
file may already hold `prevOut`.  The script opens the output with mode
`"w"`, which truncates, so the produced content is independent of
`prevOut`. -/
def runEncoder (prevOut : Option String) (inputBase : String)
    (displayTypeArg : Option String) (w h : Nat)
    (pixels : List (Nat × Nat × Nat)) : String :=
  convert_png_to_header inputBase displayTypeArg w h pixels

/-! ## Supporting lemmas for the pixel-array line structure -/

lemma emitGo_nil (n i : Nat) : emitGo n i [] = ("") := rfl

lemma emitGo_cons (n i v : Nat) (rest : List Nat) :
    emitGo n i (v :: rest) = pixelPiece n i v ++ emitGo n (i + 1) rest := rfl

lemma emitGo_append (n i : Nat) (l₁ l₂ : List Nat) :
    emitGo n i (l₁ ++ l₂) = emitGo n i l₁ ++ emitGo n (i + l₁.length) l₂ := by
  induction l₁ generalizing i with
  | nil => simp [emitGo]
  | cons v rest ih =>
    rw [List.cons_append, emitGo_cons, emitGo_cons, ih (i + 1),
      String.append_assoc, List.length_cons]
    have harith : i + 1 + rest.length = i + (rest.length + 1) := by omega
    rw [harith]

lemma emitGo_tail_last (c : List Nat) (i n : Nat) (hn : n = i + c.length)
    (hfit : c.length + i % 8 ≤ 8) (hi : i % 8 ≠ 0) :
    emitGo n i c = joinSep (", ") (c.map hex4) ++
      (if (i + c.length) % 8 = 0 then ("\n") else ("")) := by
  induction c generalizing i with
  | nil =>
    simp only [emitGo, List.map_nil, joinSep, List.length_nil, Nat.add_zero]
    rw [if_neg hi, String.empty_append]
  | cons v rest ih =>
    rw [emitGo_cons, pixelPiece, if_neg hi, String.empty_append]
    cases rest with
    | nil =>
      simp only [List.length_cons, List.length_nil] at hn hfit
      have hsep : ¬ i < n - 1 := by omega
      rw [if_neg hsep, String.append_empty, emitGo_nil, String.append_empty]
      simp only [List.map_cons, List.map_nil, joinSep, List.length_cons,
        List.length_nil, Nat.zero_add]
    | cons w ws =>
      simp only [List.length_cons] at hn hfit
      have hsep : i < n - 1 := by omega
      have hnl : ¬ (i + 1) % 8 = 0 := by omega
      rw [if_pos hsep, if_neg hnl, String.append_empty]
      have hrec := ih (i + 1) (by simp only [List.length_cons]; omega)
        (by simp only [List.length_cons]; omega) (by omega)
      rw [hrec]
      have harith : (i + 1 + (ws.length + 1)) % 8 =
          (i + (ws.length + 1 + 1)) % 8 := by omega
      simp only [List.map_cons, joinSep, List.length_cons, String.append_assoc,
        harith]

lemma emitGo_tail_mid (c : List Nat) (i n : Nat) (hne : c ≠ [])
    (hfill : c.length + i % 8 = 8) (hi : i % 8 ≠ 0) (hlt : i + c.length < n) :
    emitGo n i c = joinSep (", ") (c.map hex4) ++ (", \n") := by
  induction c generalizing i with
  | nil => exact absurd rfl hne
  | cons v rest ih =>
    rw [emitGo_cons, pixelPiece, if_neg hi, String.empty_append]
    simp only [List.length_cons] at hfill hlt
    have hsep : i < n - 1 := by omega
    rw [if_pos hsep]
    cases rest with
    | nil =>
      simp only [List.length_nil] at hfill hlt
      have hnl : (i + 1) % 8 = 0 := by omega
      rw [if_pos hnl, emitGo_nil, String.append_empty]
      simp only [List.map_cons, List.map_nil, joinSep, String.append_assoc]
      rfl
    | cons w ws =>
      simp only [List.length_cons] at hfill hlt
      have hnl : ¬ (i + 1) % 8 = 0 := by omega
      rw [if_neg hnl, String.append_empty]
      have hrec := ih (i + 1) (by simp) (by simp only [List.length_cons]; omega)
        (by omega) (by simp only [List.length_cons]; omega)
      rw [hrec]
      simp only [List.map_cons, joinSep, String.append_assoc]

lemma emitGo_chunk_last (c : List Nat) (i n : Nat) (hc : c ≠ [])
    (hc8 : c.length ≤ 8) (hi : i % 8 = 0) (hn : n = i + c.length) :
    emitGo n i c ++ (if n % 8 ≠ 0 then ("\n") else ("")) = hexLine c true := by
  cases c with
  | nil => exact absurd rfl hc
  | cons v rest =>
    rw [emitGo_cons, pixelPiece, if_pos hi]
    simp only [List.length_cons] at hn hc8
    cases rest with
    | nil =>
      simp only [List.length_nil] at hn hc8
      have hsep : ¬ i < n - 1 := by omega
      have hnl : ¬ (i + 1) % 8 = 0 := by omega
      have hfix : n % 8 ≠ 0 := by omega
      rw [if_neg hsep, if_neg hnl, if_pos hfix, emitGo_nil]
      simp [hexLine, joinSep, String.append_assoc]
    | cons w ws =>
      simp only [List.length_cons] at hn hc8
      have hsep : i < n - 1 := by omega
      have hnl : ¬ (i + 1) % 8 = 0 := by omega
      rw [if_pos hsep, if_neg hnl, String.append_empty]
      have hrec := emitGo_tail_last (w :: ws) (i + 1) n
        (by simp only [List.length_cons]; omega)
        (by simp only [List.length_cons]; omega) (by omega)
      rw [hrec]
      simp only [hexLine, List.map_cons, joinSep, List.length_cons,
        String.append_assoc]
      by_cases hfull : ws.length + 1 + 1 = 8
      · have hin : (i + 1 + (ws.length + 1)) % 8 = 0 := by omega
        have hfix : ¬ n % 8 ≠ 0 := by omega
        rw [if_pos hin, if_neg hfix]
        simp
      · have hin : ¬ (i + 1 + (ws.length + 1)) % 8 = 0 := by omega
        have hfix : n % 8 ≠ 0 := by omega
        rw [if_neg hin, if_pos hfix]
        simp

lemma emitGo_chunk_mid (c : List Nat) (i n : Nat) (hc : c.length = 8)
    (hi : i % 8 = 0) (hlt : i + 8 < n) :
    emitGo n i c = hexLine c false := by
  cases c with
  | nil => simp at hc
  | cons v rest =>
    rw [emitGo_cons, pixelPiece, if_pos hi]
    simp only [List.length_cons] at hc
    have hsep : i < n - 1 := by omega
    have hnl : ¬ (i + 1) % 8 = 0 := by omega
    rw [if_pos hsep, if_neg hnl, String.append_empty]
    have hne : rest ≠ [] := by
      intro h; rw [h] at hc; simp at hc
    have hrec := emitGo_tail_mid rest (i + 1) n hne (by omega) (by omega)
      (by omega)
    rw [hrec]
    cases rest with
    | nil => exact absurd rfl hne
    | cons w ws =>
      simp [hexLine, joinSep, String.append_assoc]

lemma emit_eq_chunks_go (m : Nat) : ∀ (l : List Nat) (i n : Nat),
    l.length ≤ m → i % 8 = 0 → n = i + l.length → l ≠ [] →
    emitGo n i l ++ (if n % 8 ≠ 0 then ("\n") else ("")) =
      emitPixelDataChunks l := by
  induction m with
  | zero =>
    intro l i n hm _ _ hne
    cases l with
    | nil => exact absurd rfl hne
    | cons v rest => simp at hm
  | succ m ih =>
    intro l i n hm hi hn hne
    by_cases h8 : l.length ≤ 8
    · rw [emitPixelDataChunks, dif_neg hne, if_pos h8]
      exact emitGo_chunk_last l i n hne h8 hi hn
    · have hsplit := List.take_append_drop 8 l
      have htake : (l.take 8).length = 8 := by
        rw [List.length_take]; omega
      have hdroplen : (l.drop 8).length = l.length - 8 := List.length_drop 8 l
      have hdropne : l.drop 8 ≠ [] := by
        intro h
        have := congrArg List.length h
        simp only [hdroplen, List.length_nil] at this
        omega
      calc emitGo n i l ++ (if n % 8 ≠ 0 then ("\n") else (""))
          = emitGo n i (l.take 8 ++ l.drop 8) ++
              (if n % 8 ≠ 0 then ("\n") else ("")) := by rw [hsplit]
        _ = (emitGo n i (l.take 8) ++ emitGo n (i + 8) (l.drop 8)) ++
              (if n % 8 ≠ 0 then ("\n") else ("")) := by
              rw [emitGo_append, htake]
        _ = emitGo n i (l.take 8) ++ (emitGo n (i + 8) (l.drop 8) ++
              (if n % 8 ≠ 0 then ("\n") else (""))) := by
              rw [String.append_assoc]
        _ = hexLine (l.take 8) false ++ emitPixelDataChunks (l.drop 8) := by
              rw [emitGo_chunk_mid (l.take 8) i n htake hi (by omega)]
              rw [ih (l.drop 8) (i + 8) n (by omega) (by omega) (by omega)
                hdropne]
        _ = emitPixelDataChunks l := by
              conv_rhs => rw [emitPixelDataChunks]
              rw [dif_neg hne, if_neg h8]

lemma chunks_ends_newline (m : Nat) : ∀ l : List Nat, l.length ≤ m → l ≠ [] →
    ∃ s, emitPixelDataChunks l = s ++ ("\n") := by
  induction m with
  | zero =>
    intro l hm hne
    cases l with
    | nil => exact absurd rfl hne
    | cons v rest => simp at hm
  | succ m ih =>
    intro l hm hne
    by_cases h8 : l.length ≤ 8
    · refine ⟨("  ") ++ joinSep (", ") (l.map hex4), ?_⟩
      rw [emitPixelDataChunks, dif_neg hne, if_pos h8, hexLine]
      simp [String.append_assoc]
    · have hdroplen : (l.drop 8).length = l.length - 8 := List.length_drop 8 l
      have hdropne : l.drop 8 ≠ [] := by
        intro h
        have := congrArg List.length h
        simp only [hdroplen, List.length_nil] at this
        omega
      obtain ⟨s, hs⟩ := ih (l.drop 8) (by omega) hdropne
      refine ⟨hexLine (l.take 8) false ++ s, ?_⟩
      rw [emitPixelDataChunks, dif_neg hne, if_neg h8, hs,
        String.append_assoc]

/-! ## Claim theorems for the image encoder -/

/-- C1: for every RGB888 triple (r,g,b) with each component in 0..255,
`rgb888_to_rgb565` returns exactly `(r>>3)<<11 ||| (g>>2)<<5 ||| (b>>3)`
(the explicit 5/6/5 masks are no-ops on 8-bit input), and the result lies
in 0..65535.  The function is a pure Lean `def`, hence deterministic. -/
theorem rgb565_encoding_correct (r g b : Nat)
    (hr : r ≤ 255) (hg : g ≤ 255) (hb : b ≤ 255) :
    rgb888_to_rgb565 r g b =
      ((r >>> 3) <<< 11) ||| ((g >>> 2) <<< 5) ||| (b >>> 3) ∧
    rgb888_to_rgb565 r g b ≤ 65535 := by
  have hr5 : r >>> 3 < 2 ^ 5 := by
    rw [Nat.shiftRight_eq_div_pow]
    norm_num
    omega
  have hg6 : g >>> 2 < 2 ^ 6 := by
    rw [Nat.shiftRight_eq_div_pow]
    norm_num
    omega
  have hb5 : b >>> 3 < 2 ^ 5 := by
    rw [Nat.shiftRight_eq_div_pow]
    norm_num
    omega
  have er : (r >>> 3) &&& 31 = r >>> 3 := by
    have := Nat.and_pow_two_sub_one_of_lt_two_pow hr5
    norm_num at this
    exact this
  have eg : (g >>> 2) &&& 63 = g >>> 2 := by
    have := Nat.and_pow_two_sub_one_of_lt_two_pow hg6
    norm_num at this
    exact this
  have eb : (b >>> 3) &&& 31 = b >>> 3 := by
    have := Nat.and_pow_two_sub_one_of_lt_two_pow hb5
    norm_num at this
    exact this
  have hmain : rgb888_to_rgb565 r g b =
      ((r >>> 3) <<< 11) ||| ((g >>> 2) <<< 5) ||| (b >>> 3) := by
    simp only [rgb888_to_rgb565, er, eg, eb]
  refine ⟨hmain, ?_⟩
  rw [hmain]
  have h1 : (r >>> 3) <<< 11 < 2 ^ 16 := by
    rw [Nat.shiftLeft_eq]
    norm_num at hr5 ⊢
    omega
  have h2 : (g >>> 2) <<< 5 < 2 ^ 16 := by
    rw [Nat.shiftLeft_eq]
    norm_num at hg6 ⊢
    omega
  have h3 : b >>> 3 < 2 ^ 16 := lt_of_lt_of_le hb5 (by norm_num)
  have := Nat.or_lt_two_pow (Nat.or_lt_two_pow h1 h2) h3
  norm_num at this
  omega

/-- Witness for C1 at the concrete triple (255, 0, 0). -/
theorem rgb565_encoding_correct_witness :
    rgb888_to_rgb565 255 0 0 =
      ((255 >>> 3) <<< 11) ||| ((0 >>> 2) <<< 5) ||| (0 >>> 3) ∧
    rgb888_to_rgb565 255 0 0 ≤ 65535 :=
  rgb565_encoding_correct 255 0 0 (by decide) (by decide) (by decide)

/-- C6: display-type resolution maps (80,160) to ST7735, (240,240) to
ST7789, (160,80) to ST7735_ROTATED and every other pair to CUSTOM; for
CUSTOM the dimension-mismatch warning is never emitted (its expected-
dimension list is empty, so validation is bypassed); and a warning for a
known tag never alters the produced header: the conversion still emits the
complete output text. -/
theorem display_type_resolution :
    detect_display_type 80 160 = ("ST7735") ∧
    detect_display_type 240 240 = ("ST7789") ∧
    detect_display_type 160 80 = ("ST7735_ROTATED") ∧
    (∀ w h : Nat, ¬(w = 80 ∧ h = 160) → ¬(w = 240 ∧ h = 240) →
      ¬(w = 160 ∧ h = 80) → detect_display_type w h = ("CUSTOM")) ∧
    (∀ w h : Nat, dimensionWarning w h ("CUSTOM") = false) ∧
    (∀ (base dt : String) (w h : Nat) (pixels : List (Nat × Nat × Nat)),
      dimensionWarning w h dt = true →
      convert_png_to_header base (some dt) w h pixels =
        headerComment base dt w h (pixels.length * 2) ++ guardText ++
          macroSection dt w h (pixels.length * 2) ++ bitmapIntro dt w h ++
          emitPixelData (splashValues pixels) ++ closingText) := by
  refine ⟨by decide, by decide, by decide, ?_, ?_, ?_⟩
  · intro w h h1 h2 h3
    rw [detect_display_type, if_neg h1, if_neg h2, if_neg h3]
  · intro w h
    have hdims : expected_dims ("CUSTOM") = some [] := by decide
    rw [dimensionWarning, hdims]
    rfl
  · intro base dt w h pixels _
    rfl

/-- Witness for C6: a 100×50 image resolves to CUSTOM, CUSTOM emits no
warning, and for ST7789 at mismatched 80×160 the header is still fully
produced. -/
theorem display_type_resolution_witness :
    detect_display_type 100 50 = ("CUSTOM") ∧
    dimensionWarning 100 50 ("CUSTOM") = false ∧
    convert_png_to_header ("a.png") (some ("ST7789")) 80 160 [] =
      headerComment ("a.png") ("ST7789") 80 160 0 ++ guardText ++
        macroSection ("ST7789") 80 160 0 ++ bitmapIntro ("ST7789") 80 160 ++
        emitPixelData (splashValues []) ++ closingText :=
  ⟨display_type_resolution.2.2.2.1 100 50 (by decide) (by decide) (by decide),
   display_type_resolution.2.2.2.2.1 100 50,
   by
    have h := display_type_resolution.2.2.2.2.2 ("a.png") ("ST7789") 80 160 []
      (by decide)
    simpa using h⟩

/-- C7: the image encoder is idempotent.  A run is modelled against the
prior content of the output file (`prevOut`); since the script opens the
output with truncating mode `"w"` and the generated text is a pure
function of the input image and arguments, a second run on unchanged
input (with the first run's output on disk) produces byte-identical
output. -/
theorem encoder_idempotent (prev prev' : Option String) (base : String)
    (dt : Option String) (w h : Nat) (px : List (Nat × Nat × Nat)) :
    runEncoder prev base dt w h px = runEncoder prev' base dt w h px := rfl

set_option maxRecDepth 8192 in
/-- C3: for a W×H image (pixel list of length W*H) the emitted packed
array has exactly W*H elements and the SIZE macro value is 2*W*H bytes;
the 2×1 image with pixels (255,0,0),(0,255,0) auto-detects as CUSTOM and
produces WIDTH=2, HEIGHT=1, SIZE=4 and the packed data `0xF800, 0x07E0`. -/
theorem image_size_law (w h : Nat) (pixels : List (Nat × Nat × Nat))
    (hlen : pixels.length = w * h) :
    (splashValues pixels).length = w * h ∧
    pixels.length * 2 = 2 * (w * h) ∧
    splashValues [(255, 0, 0), (0, 255, 0)] = [0xF800, 0x07E0] ∧
    convert_png_to_header ("splash.png") none 2 1 [(255, 0, 0), (0, 255, 0)] =
      headerComment ("splash.png") ("CUSTOM") 2 1 4 ++ guardText ++
        macroSection ("CUSTOM") 2 1 4 ++ bitmapIntro ("CUSTOM") 2 1 ++
        ("  0xF800, 0x07E0\n") ++ closingText ∧
    macroSection ("CUSTOM") 2 1 4 =
      ("// Bitmap dimensions for CUSTOM\n#define SPLASH_WIDTH  2" ++
       "\n#define SPLASH_HEIGHT 1\n#define SPLASH_SIZE   4\n\n") := by
  refine ⟨?_, by omega, by decide, ?_, by decide⟩
  · simp only [splashValues, List.length_map, hlen]
  · decide

/-- Witness for C3 at the 2×1 scenario image itself. -/
theorem image_size_law_witness :
    (splashValues [(255, 0, 0), (0, 255, 0)]).length = 2 * 1 ∧
    ([((255:Nat), (0:Nat), (0:Nat)), (0, 255, 0)]).length * 2 = 2 * (2 * 1) :=
  ⟨(image_size_law 2 1 [(255, 0, 0), (0, 255, 0)] (by decide)).1,
   (image_size_law 2 1 [(255, 0, 0), (0, 255, 0)] (by decide)).2.1⟩

/-- C8: for every pixel-value list the loop-generated data text equals the
line-structured rendering `emitPixelDataChunks`, whose every non-final
line carries exactly 8 values (`l.take 8` under `¬ l.length ≤ 8`) and
whose final line carries the remaining values joined by `", "` with no
separator after the last one; moreover for a nonempty list the data text
ends in a newline, so the closing brace written right after it stands on
its own line.  This holds whether or not the count is a multiple of 8. -/
theorem pixel_array_line_structure (vals : List Nat) :
    emitPixelData vals = emitPixelDataChunks vals ∧
    (vals ≠ [] → ∃ s, emitPixelData vals = s ++ ("\n")) := by
  constructor
  · by_cases hv : vals = []
    · subst hv
      rw [emitPixelDataChunks]
      simp [emitPixelData, emitGo]
    · exact emit_eq_chunks_go vals.length vals 0 vals.length le_rfl
        (by decide) (by omega) hv
  · intro hv
    obtain ⟨s, hs⟩ := chunks_ends_newline vals.length vals le_rfl hv
    refine ⟨s, ?_⟩
    rw [← hs]
    exact emit_eq_chunks_go vals.length vals 0 vals.length le_rfl
      (by decide) (by omega) hv

/-- Witness for C8 at a 9-value list (count not a multiple of 8) — the
second conjunct's hypothesis is discharged concretely. -/
theorem pixel_array_line_structure_witness :
    emitPixelData [1, 2, 3, 4, 5, 6, 7, 8, 9] =
      emitPixelDataChunks [1, 2, 3, 4, 5, 6, 7, 8, 9] ∧
    ∃ s, emitPixelData [1, 2, 3, 4, 5, 6, 7, 8, 9] = s ++ ("\n") :=
  ⟨(pixel_array_line_structure [1, 2, 3, 4, 5, 6, 7, 8, 9]).1,
   (pixel_array_line_structure [1, 2, 3, 4, 5, 6, 7, 8, 9]).2 (by decide)⟩

/-! ## `minify.py`: character classes and regex-substitution primitives -/

/-- Python regex `\s` (ASCII whitespace, as occurring in the text assets). -/
def isSpaceB (c : Char) : Bool :=
  c == ' ' || c == '\t' || c == '\n' || c == '\r' || c == '\x0b' || c == '\x0c'

/-- Scan for the first occurrence of `*/` and return the suffix after it
(the non-greedy `.*?\*/` of the comment regexes finds the earliest
closer). -/
def dropToClose : List Char → Option (List Char)
  | '*' :: '/' :: rest => some rest
  | _ :: rest => dropToClose rest
  | [] => none

/-- `re.sub(r'/\*.*?\*/', '', content, flags=re.DOTALL)` of
`process_css_file`, on the character list: left-to-right scan, each
`/*`…first `*/` match deleted, scanning resuming after the deleted
match.  Structurally recursive on a fuel bound (`fuel ≥ length`) so it
evaluates by kernel reduction. -/
def removeCommentsAux (fuel : Nat) (l : List Char) : List Char :=
  match fuel, l with
  | 0, l => l
  | _, [] => []
  | fuel + 1, '/' :: '*' :: rest =>
    match dropToClose rest with
    | some rest2 => removeCommentsAux fuel rest2
    | none => '/' :: removeCommentsAux fuel ('*' :: rest)
  | fuel + 1, c :: rest => c :: removeCommentsAux fuel rest

/-- Comment removal of `process_css_file`. -/
def removeComments (l : List Char) : List Char := removeCommentsAux l.length l

/-- `re.sub(r'\s+', ' ', content)` of `process_css_file`: every maximal
whitespace run becomes a single space.  `prevSpace` records whether the
previous character belonged to a run already emitted. -/
def collapseGo (prevSpace : Bool) : List Char → List Char
  | [] => []
  | c :: rest =>
    if isSpaceB c then
      if prevSpace then collapseGo true rest
      else ' ' :: collapseGo true rest
    else c :: collapseGo false rest

/-- Trailing-whitespace removal (the right half of Python `str.strip()`). -/
def rstripWs : List Char → List Char
  | [] => []
  | c :: rest =>
    let r := rstripWs rest
    if r = [] then (if isSpaceB c then [] else [c]) else c :: r

/-- Python `str.strip()`: drop leading and trailing whitespace. -/
def stripWs (l : List Char) : List Char := rstripWs (l.dropWhile isSpaceB)

/-- The full CSS minification of `process_css_file`: remove block
comments, collapse whitespace runs, strip. -/
def minifyCss (s : String) : String :=
  String.mk (stripWs (collapseGo false (removeComments s.toList)))

/-- `sanitize_symbol` from `tools/minify.py` (also the inline
`filename.replace('.', '_').replace('-', '_')` of `process_css_file`). -/
def sanitize_symbol (name : String) : String :=
  String.mk (name.toList.map (fun c => if c = '.' ∨ c = '-' then '_' else c))

/-- Python `str.upper()` on the ASCII filenames used by the bundler. -/
def upperAscii (s : String) : String := String.mk (s.toList.map Char.toUpper)

/-! ## UTF-8 encoding (Python `s.encode('utf-8')`) and gzip model -/

/-- UTF-8 bytes of one code point. -/
def utf8Bytes (c : Char) : List Nat :=
  let n := c.toNat
  if n < 0x80 then [n]
  else if n < 0x800 then [0xC0 ||| (n >>> 6), 0x80 ||| (n &&& 0x3F)]
  else if n < 0x10000 then
    [0xE0 ||| (n >>> 12), 0x80 ||| ((n >>> 6) &&& 0x3F), 0x80 ||| (n &&& 0x3F)]
  else
    [0xF0 ||| (n >>> 18), 0x80 ||| ((n >>> 12) &&& 0x3F),
     0x80 ||| ((n >>> 6) &&& 0x3F), 0x80 ||| (n &&& 0x3F)]

/-- Python `s.encode('utf-8')` / `bytes(s, 'utf-8')`, as a byte list. -/
def strToBytes (s : String) : List Nat := (s.toList.map utf8Bytes).flatten

/-- One bit-step of the reflected CRC-32 (polynomial 0xEDB88320). -/
def crc32Round (c : Nat) : Nat :=
  if c % 2 = 1 then (c >>> 1) ^^^ 0xEDB88320 else c >>> 1

/-- CRC-32 update by one byte (eight bit-steps after xoring the byte in). -/
def crc32Byte (crc b : Nat) : Nat :=
  crc32Round (crc32Round (crc32Round (crc32Round
    (crc32Round (crc32Round (crc32Round (crc32Round (crc ^^^ b))))))))

/-- `zlib.crc32` over a byte list (init 0xFFFFFFFF, final xor), written
into the gzip trailer. -/
def crc32 (data : List Nat) : Nat :=
  (data.foldl crc32Byte 0xFFFFFFFF) ^^^ 0xFFFFFFFF

/-- A 32-bit value as four little-endian bytes. -/
def le32 (n : Nat) : List Nat :=
  [n % 256, (n >>> 8) % 256, (n >>> 16) % 256, (n >>> 24) % 256]

/-- The DEFLATE payload of the gzip stream, modelled as RFC 1951 stored
blocks.  It stands in for zlib's compressor, of which the claims use only
that the payload is a deterministic function of the input bytes (true of
zlib at the fixed default compression level).  Structurally recursive on
fuel (`data.length + 1` blocks always suffice). -/
def deflateStoredAux (fuel : Nat) (data : List Nat) : List Nat :=
  match fuel with
  | 0 => []
  | fuel + 1 =>
    if data.length ≤ 65535 then
      [1, data.length % 256, data.length / 256,
       255 - data.length % 256, 255 - data.length / 256] ++ data
    else
      [0, 255, 255, 0, 0] ++ data.take 65535 ++
        deflateStoredAux fuel (data.drop 65535)

/-- DEFLATE payload (see `deflateStoredAux`). -/
def deflateStored (data : List Nat) : List Nat :=
  deflateStoredAux (data.length + 1) data

/-- The 10-byte gzip member header written by CPython's `gzip.GzipFile`
when constructed with a `fileobj` and no `mtime` argument (as
`binary_to_c_array`/`string_to_c_array` do): magic 1F 8B, method 8
(deflate), flags 0 (no embedded name, since only a `fileobj` is given),
then the MTIME field — `int(time.time())`, the current clock, in four
little-endian bytes — then XFL 2 (max compression, level 9 default) and
the OS byte.  The `mtime` parameter makes this clock dependence
explicit. -/
def gzipHeaderBytes (mtime : Nat) : List Nat :=
  [0x1F, 0x8B, 8, 0] ++ le32 mtime ++ [2, 255]

/-- The whole gzip stream produced for `data` at clock reading `mtime`:
header, deflate payload, CRC-32 and input-size trailer. -/
def gzipCompress (mtime : Nat) (data : List Nat) : List Nat :=
  gzipHeaderBytes mtime ++ deflateStored data ++
    le32 (crc32 data) ++ le32 (data.length % 4294967296)

/-! ## `minify.py`: C-array emission and the asset index -/

/-- One row of the `assets[]` index: the `entries.append(...)` data of
`binary_to_c_array`/`string_to_c_array`. -/
structure IndexEntry where
  fileName : String
  arrayName : String
  byteLen : Nat
deriving DecidableEq

/-- The literal text of one index row:
`f'    {{ "{file_name}", {array_name}, {len(out_data)} }}'`. -/
def renderEntry (e : IndexEntry) : String :=
  ("    \x7b \"") ++ e.fileName ++ ("\", ") ++ e.arrayName ++ (", ") ++
    toString e.byteLen ++ (" \x7d")

/-- Fixed-size chunking (size `k + 1`) of a list, as produced by
`range(0, len(out_data), bytes_per_line)`; structurally recursive on a
fuel bound so it evaluates by kernel reduction. -/
def chunksByAux (k : Nat) : Nat → List Nat → List (List Nat)
  | _, [] => []
  | 0, _ => []
  | fuel + 1, l => l.take (k + 1) :: chunksByAux k fuel (l.drop (k + 1))

/-- Chunks of size `k + 1` covering `l` in order. -/
def chunksBy (k : Nat) (l : List Nat) : List (List Nat) :=
  chunksByAux k l.length l

/-- The body lines of an emitted byte array: 16 bytes per line, each line
`  0xAA, 0xBB, ...,` (note the trailing comma the source appends to every
line). -/
def bodyLines (out : List Nat) : List String :=
  (chunksBy 15 out).map
    (fun chunk => ("  ") ++ joinSep (", ") (chunk.map hex2) ++ (","))

/-- `binary_to_c_array` from `tools/minify.py`: the file's raw bytes
(gzip-compressed when `compress`), rendered as a named `uint8_t` array
declaration, together with the index entry recording `len(out_data)`.
`mtime` is the clock reading used for the gzip header. -/
def binary_to_c_array (fileName : String) (raw : List Nat) (compress : Bool)
    (mtime : Nat) : String × IndexEntry :=
  let array_name := sanitize_symbol fileName
  let out_data := if compress then gzipCompress mtime raw else raw
  let decl := ("const uint8_t ") ++ array_name ++ ("[] = \x7b\n") ++
    joinSep ("\n") (bodyLines out_data) ++ ("\n\x7d;")
  (decl, ⟨fileName, array_name, out_data.length⟩)

/-- `string_to_c_array` from `tools/minify.py`: UTF-8-encode the string
(gzip-compressing when `compress`) and render as for
`binary_to_c_array`. -/
def string_to_c_array (s : String) (name : String) (compress : Bool)
    (mtime : Nat) : String × IndexEntry :=
  let array_name := sanitize_symbol name
  let out_data := if compress then gzipCompress mtime (strToBytes s)
    else strToBytes s
  let decl := ("const uint8_t ") ++ array_name ++ ("[] = \x7b\n") ++
    joinSep ("\n") (bodyLines out_data) ++ ("\n\x7d;")
  (decl, ⟨name, array_name, out_data.length⟩)

/-! ## `minify.py`: per-file processing policies -/

/-- The third-party minification of `process_html_file` (`jsmin` over
inline script bodies, then `htmlmin.minify`).  These are external,
deterministic text transformations of the file content; every claim
verified here depends on that determinism only, so they are modelled by
the identity transformation. -/
def htmlMinify (content : String) : String := content

/-- `process_html_file`: minify and embed uncompressed. -/
def process_html_file (fileName content : String) (mtime : Nat) :
    String × IndexEntry :=
  string_to_c_array (htmlMinify content) fileName false mtime

/-- `re.sub(r'^\s*/\*![\s\S]*?\*/\s*', '', content, count=1)` of
`process_jquery_file`: an anchored leading `/*!` license comment (with
surrounding whitespace) is removed once; anything else is untouched. -/
def stripJqueryLicense (l : List Char) : List Char :=
  match l.dropWhile isSpaceB with
  | '/' :: '*' :: '!' :: rest =>
    (match dropToClose rest with
     | some r => r.dropWhile isSpaceB
     | none => l)
  | _ => l

/-- `process_jquery_file`: strip the leading license comment and embed
compressed. -/
def process_jquery_file (fileName content : String) (mtime : Nat) :
    String × IndexEntry :=
  string_to_c_array (String.mk (stripJqueryLicense content.toList)) fileName
    true mtime

/-- `re.sub(r'^/\*.*?\*/\s*', '', content, flags=re.DOTALL)` of
`process_copyright_mapping_file`: an anchored leading block comment (and
following whitespace) is removed; with no unanchored re-match possible,
at most the one leading comment goes. -/
def stripLeadingBlock (l : List Char) : List Char :=
  match l with
  | '/' :: '*' :: rest =>
    (match dropToClose rest with
     | some r => r.dropWhile isSpaceB
     | none => l)
  | _ => l

/-- Literal-prefix test: `some` of the rest of the list when `pat` leads
it. -/
def dropLiteral : List Char → List Char → Option (List Char)
  | [], l => some l
  | _ :: _, [] => none
  | p :: ps, c :: cs => if p = c then dropLiteral ps cs else none

/-- One attempted match of `//\s*#\s*sourceMappingURL=.*$` (no MULTILINE:
`$` is the end of the string, or just before a final newline) at the head
of `l`; `some tail` gives what survives the substitution (`[]` or
`['\n']`). -/
def parseSourceMap (l : List Char) : Option (List Char) :=
  match l with
  | '/' :: '/' :: rest =>
    (match rest.dropWhile isSpaceB with
     | '#' :: rest2 =>
       (match dropLiteral ("sourceMappingURL=".toList)
           (rest2.dropWhile isSpaceB) with
        | some rest3 =>
          let tl := rest3.dropWhile (fun c => !(c = '\n'))
          if tl = [] ∨ tl = ['\n'] then some tl else none
        | none => none)
     | _ => none)
  | _ => none

/-- `re.sub(r'//\s*#\s*sourceMappingURL=.*$', '', trimmed)`: leftmost
match wins; what follows a match is `[]` or a lone final newline, in
which no further match can start. -/
def sourceMapScan : List Char → List Char
  | [] => []
  | c :: rest =>
    match parseSourceMap (c :: rest) with
    | some tl => tl
    | none => c :: sourceMapScan rest

/-- `process_copyright_mapping_file`: strip the leading block comment and
any trailing sourceMappingURL comment, embed compressed. -/
def process_copyright_mapping_file (fileName content : String) (mtime : Nat) :
    String × IndexEntry :=
  string_to_c_array
    (String.mk (sourceMapScan (stripLeadingBlock content.toList))) fileName
    true mtime

/-- `process_misc_file`: embed the raw text compressed. -/
def process_misc_file (fileName content : String) (mtime : Nat) :
    String × IndexEntry :=
  string_to_c_array content fileName true mtime

/-- `process_css_file` from `tools/minify.py`.  Note the return value: a
*pair* `(css_content, filename)` — unlike every other processing routine,
which returns a single string. -/
def process_css_file (content fileName : String) : String × String :=
  let minified := minifyCss content
  let var_name := upperAscii (sanitize_symbol fileName)
  let css_content := ("\nconst char ") ++ var_name ++
    ("[] PROGMEM = R\"(") ++ minified ++ (")\";\n")
  (css_content, fileName)

/-! ## `minify.py`: module entry point -/

/-- A source file of the asset directory: its name and its content
(the assets of this repository are UTF-8 text; binary assets are
represented through the byte sequence of their content string, which the
byte-level processing treats uniformly). -/
structure SrcFile where
  name : String
  content : String
deriving DecidableEq

/-- A Python value written to the output stream: every processing routine
returns a string, except `process_css_file`, which returns a
(string, string) tuple. -/
inductive PyVal where
  | str (s : String)
  | pair (a b : String)
deriving DecidableEq

/-- The single runtime error class the entry point can raise from pure
string manipulation. -/
inductive PyErr where
  | typeError
deriving DecidableEq

/-- Python `x + "\n"` as used in `f.write(process_...(...) + "\n")`:
concatenating a tuple with a string raises `TypeError`. -/
def pyConcat : PyVal → String → Except PyErr String
  | .str a, b => .ok (a ++ b)
  | .pair _ _, _ => .error .typeError

/-- `s.endswith(p)` on the asset file names. -/
def strEndsWith (s p : String) : Bool := p.toList.isSuffixOf s.toList

/-- `s.startswith(p)` on the asset file names. -/
def strStartsWith (s p : String) : Bool := p.toList.isPrefixOf s.toList

/-- The extension/prefix dispatch of the entry-point loop
(`for filename in os.listdir(src_path): ...`) applied to one file:
`none` when the extension matches no branch (the file is skipped),
otherwise the value passed to `f.write(... + "\n")` and the index entries
appended by the processing call. -/
def processFile (mtime : Nat) (f : SrcFile) : Option (PyVal × List IndexEntry) :=
  if strEndsWith f.name (".html") then
    let r := process_html_file f.name f.content mtime
    some (.str r.1, [r.2])
  else if strEndsWith f.name (".js") then
    if strStartsWith f.name ("jquery") then
      let r := process_jquery_file f.name f.content mtime
      some (.str r.1, [r.2])
    else if strStartsWith f.name ("bootstrap") || strStartsWith f.name ("popper") then
      let r := process_copyright_mapping_file f.name f.content mtime
      some (.str r.1, [r.2])
    else
      let r := process_misc_file f.name f.content mtime
      some (.str r.1, [r.2])
  else if strEndsWith f.name (".css") then
    if strStartsWith f.name ("bootstrap") then
      let r := process_copyright_mapping_file f.name f.content mtime
      some (.str r.1, [r.2])
    else
      let r := process_css_file f.content f.name
      some (.pair r.1 r.2, [])
  else if strEndsWith f.name (".ico") || strEndsWith f.name (".jpg") then
    let r := binary_to_c_array f.name (strToBytes f.content) true mtime
    some (.str r.1, [r.2])
  else
    none

/-- Whether the dispatch stores this file gzip-compressed. -/
def compressesFile (f : SrcFile) : Bool :=
  if strEndsWith f.name (".html") then false
  else if strEndsWith f.name (".js") then true
  else if strEndsWith f.name (".css") then strStartsWith f.name ("bootstrap")
  else if strEndsWith f.name (".ico") || strEndsWith f.name (".jpg") then true
  else false

/-- The state of the output file and of the module-level `entries` list
while the entry-point loop runs. -/
structure BundleState where
  out : String
  entries : List IndexEntry
deriving DecidableEq

/-- Processing of one directory entry: write the processed text and
extend `entries`, or raise (leaving the file as written so far). -/
def bundleStep (mtime : Nat) (st : BundleState) (f : SrcFile) :
    Except PyErr BundleState :=
  match processFile mtime f with
  | none => .ok st
  | some (v, es) =>
    match pyConcat v ("\n") with
    | .ok s => .ok ⟨st.out ++ s, st.entries ++ es⟩
    | .error e => .error e

/-- The entry-point loop over the directory listing: final state plus the
exception that aborted it, if any. -/
def bundleFold (mtime : Nat) (st : BundleState) :
    List SrcFile → BundleState × Option PyErr
  | [] => (st, none)
  | f :: rest =>
    match bundleStep mtime st f with
    | .ok st2 => bundleFold mtime st2 rest
    | .error e => (st, some e)

/-- The text written before any asset:
`f.write("#pragma once\n")`, `f.write("#include <cstdint>\n\n")`. -/
def bundlerPrelude : String := ("#pragma once\n#include <cstdint>\n\n")

/-- `make_index` from `tools/minify.py`. -/
def make_index (entries : List IndexEntry) : String :=
  ("typedef struct \x7b\n    const char* filename;\n") ++
    ("    const uint8_t* data;\n    const unsigned int length;\n") ++
    ("\x7d EmbeddedAsset;\n\nconst EmbeddedAsset assets[] = \x7b\n") ++
    joinSep (",\n") (entries.map renderEntry) ++ ("\n\x7d;")

/-- `generate_utility_functions` from `tools/minify.py` (a fixed text). -/
def utilityFunctionsText : String :=
  ("\n// Auto-generated utility functions\n#include <Arduino.h>\n\n") ++
  ("// Get asset by filename\n") ++
  ("inline const EmbeddedAsset* getAsset(const char* filename) \x7b\n") ++
  ("    for (size_t i = 0; i < sizeof(assets) / sizeof(assets[0]); i++) \x7b\n") ++
  ("        if (strcmp(assets[i].filename, filename) == 0) \x7b\n") ++
  ("            return &assets[i];\n        \x7d\n    \x7d\n") ++
  ("    return nullptr;\n\x7d\n\n") ++
  ("// Convert binary data to String\n") ++
  ("inline String assetToString(const EmbeddedAsset* asset) \x7b\n") ++
  ("    if (asset == nullptr) return String();\n") ++
  ("    return String((char*)asset->data, asset->length);\n\x7d\n\n") ++
  ("// Direct access to main portal HTML\n") ++
  ("inline String getPortalHTML() \x7b\n") ++
  ("    return String((char*)portal_html, sizeof(portal_html) - 1);\n\x7d\n\n") ++
  ("// Get portal HTML size\n") ++
  ("inline size_t getPortalHTMLSize() \x7b\n") ++
  ("    return sizeof(portal_html) - 1;\n\x7d\n\n") ++
  ("// Get total number of assets\n") ++
  ("inline size_t getAssetCount() \x7b\n") ++
  ("    return sizeof(assets) / sizeof(assets[0]);\n\x7d\n\n") ++
  ("// Get asset by index\n") ++
  ("inline const EmbeddedAsset* getAssetByIndex(size_t index) \x7b\n") ++
  ("    if (index >= getAssetCount()) return nullptr;\n") ++
  ("    return &assets[index];\n\x7d\n")

/-- One invocation of the `minify.py` module: the existing output file
(content `prev`, if present) is removed (`os.remove`) and the output is
rewritten from scratch (`open(..., "w")`), so the result never depends on
`prev`.  Returns the final content of the output file and the success
flag; on an exception the partial content written so far remains on
disk — without the index or the accessor routines. -/
def bundlerRun (prev : Option String) (mtime : Nat) (files : List SrcFile) :
    Option String × Bool :=
  let res := bundleFold mtime ⟨bundlerPrelude, []⟩ files
  match res.2 with
  | none => (some (res.1.out ++ ("\n") ++ make_index res.1.entries ++
      ("\n") ++ utilityFunctionsText), true)
  | some _ => (some res.1.out, false)

/-- The text one file contributes to the output stream (empty for skipped
files and for files whose processing raises). -/
def writtenText (mtime : Nat) (f : SrcFile) : String :=
  match processFile mtime f with
  | none => ("")
  | some (v, _) =>
    match pyConcat v ("\n") with
    | .ok s => s
    | .error _ => ("")

/-- Whether processing this file raises an exception in the entry-point
loop. -/
def fileFails (mtime : Nat) (f : SrcFile) : Bool :=
  match processFile mtime f with
  | none => false
  | some (v, _) =>
    match pyConcat v ("\n") with
    | .ok _ => false
    | .error _ => true

/-- Concatenation of a list of strings, in order. -/
def concatAll : List String → String
  | [] => ("")
  | s :: rest => s ++ concatAll rest

/-! ## Claim theorems for the asset bundler: index-length invariant -/

lemma chunksByAux_flatten (k : Nat) : ∀ (fuel : Nat) (l : List Nat),
    l.length ≤ fuel → (chunksByAux k fuel l).flatten = l := by
  intro fuel
  induction fuel with
  | zero =>
    intro l hl
    cases l with
    | nil => rfl
    | cons c rest => simp at hl
  | succ fuel ih =>
    intro l hl
    cases l with
    | nil => rfl
    | cons c rest =>
      show (((c :: rest).take (k + 1)) ::
        chunksByAux k fuel ((c :: rest).drop (k + 1))).flatten = c :: rest
      rw [List.flatten_cons, ih ((c :: rest).drop (k + 1))
        (by simp only [List.length_drop, List.length_cons] at hl ⊢; omega)]
      exact List.take_append_drop (k + 1) (c :: rest)

lemma chunks_length_sum (out : List Nat) :
    ((chunksBy 15 out).map List.length).sum = out.length := by
  have h1 : (chunksBy 15 out).flatten = out :=
    chunksByAux_flatten 15 out.length out le_rfl
  have h2 := List.length_flatten (chunksBy 15 out)
  rw [h1] at h2
  omega

/-- C2: for every asset emitted by `binary_to_c_array` or
`string_to_c_array`, the length recorded in its index entry equals the
number of bytes rendered in the body of the emitted array declaration:
the body's lines are the 16-byte chunks of `out_data`, the rendered byte
literals per line number exactly the chunk's length, and their total is
`len(out_data)` — the recorded length.  The second and fourth conjuncts
pin the emitted declaration text to exactly those body lines. -/
theorem asset_index_length_matches (fileName s : String) (raw : List Nat)
    (compress : Bool) (mtime : Nat) :
    ((binary_to_c_array fileName raw compress mtime).2.byteLen =
      (((chunksBy 15 (if compress then gzipCompress mtime raw else raw)).map
        List.length).sum) ∧
     (binary_to_c_array fileName raw compress mtime).1 =
       ("const uint8_t ") ++ sanitize_symbol fileName ++ ("[] = \x7b\n") ++
         joinSep ("\n") (bodyLines
           (if compress then gzipCompress mtime raw else raw)) ++
         ("\n\x7d;")) ∧
    ((string_to_c_array s fileName compress mtime).2.byteLen =
      (((chunksBy 15 (if compress then gzipCompress mtime (strToBytes s)
          else strToBytes s)).map List.length).sum) ∧
     (string_to_c_array s fileName compress mtime).1 =
       ("const uint8_t ") ++ sanitize_symbol fileName ++ ("[] = \x7b\n") ++
         joinSep ("\n") (bodyLines
           (if compress then gzipCompress mtime (strToBytes s)
            else strToBytes s)) ++
         ("\n\x7d;")) := by
  refine ⟨⟨?_, rfl⟩, ?_, rfl⟩
  · simp only [binary_to_c_array]
    rw [chunks_length_sum]
  · simp only [string_to_c_array]
    rw [chunks_length_sum]

/-! ## Claim theorems for the asset bundler: determinism and failure -/

lemma processFile_time_indep (f : SrcFile) (m1 m2 : Nat)
    (h : compressesFile f = false) :
    processFile m1 f = processFile m2 f := by
  unfold processFile compressesFile at *
  by_cases h1 : strEndsWith f.name (".html") = true
  · simp [h1, process_html_file, string_to_c_array]
  · simp only [h1, if_false, Bool.false_eq_true, ite_false] at h ⊢
    by_cases h2 : strEndsWith f.name (".js") = true
    · simp [h2] at h
    · simp only [h2, Bool.false_eq_true, ite_false] at h ⊢
      by_cases h3 : strEndsWith f.name (".css") = true
      · simp only [h3, ite_true] at h ⊢
        simp [h]
      · simp only [h3, Bool.false_eq_true, ite_false] at h ⊢
        by_cases h4 : (strEndsWith f.name (".ico") ||
            strEndsWith f.name (".jpg")) = true
        · simp [h4] at h
        · simp [h4]

lemma bundleFold_time_indep (m1 m2 : Nat) :
    ∀ (files : List SrcFile), (∀ f ∈ files, compressesFile f = false) →
    ∀ st, bundleFold m1 st files = bundleFold m2 st files := by
  intro files
  induction files with
  | nil => intro _ st; rfl
  | cons f rest ih =>
    intro h st
    have hf := h f (by simp)
    have hstep : bundleStep m1 st f = bundleStep m2 st f := by
      unfold bundleStep
      rw [processFile_time_indep f m1 m2 hf]
    show (match bundleStep m1 st f with
      | .ok st2 => bundleFold m1 st2 rest
      | .error e => (st, some e)) =
      (match bundleStep m2 st f with
      | .ok st2 => bundleFold m2 st2 rest
      | .error e => (st, some e))
    rw [hstep]
    cases h2 : bundleStep m2 st f with
    | ok st2 =>
      simp only []
      exact ih (fun g hg => h g (by simp [hg])) st2
    | error e => rfl

/-- C5 (amended): the bundler is a pure function of the asset directory
listing and of the clock reading `mtime` recorded by gzip; it never
depends on the previous content of the output file (removed and rewritten
from scratch).  Two runs in the same traversal order are byte-identical
whenever their gzip timestamps coincide, and unconditionally when no
processed asset is stored compressed. -/
theorem bundler_deterministic_amended :
    (∀ (prev prev' : Option String) (m : Nat) (files : List SrcFile),
      bundlerRun prev m files = bundlerRun prev' m files) ∧
    (∀ (m1 m2 : Nat) (files : List SrcFile),
      (∀ f ∈ files, compressesFile f = false) →
      bundlerRun none m1 files = bundlerRun none m2 files) := by
  constructor
  · intro prev prev' m files; rfl
  · intro m1 m2 files h
    unfold bundlerRun
    rw [bundleFold_time_indep m1 m2 files h ⟨bundlerPrelude, []⟩]

/-- Witness for C5's amended statement: an HTML-only directory bundles
identically at clock readings 0 and 1, and independently of stale output
content. -/
theorem bundler_deterministic_amended_witness :
    bundlerRun (some ("stale")) 0 [⟨("index.html"), ("<p>hi</p>")⟩] =
      bundlerRun none 0 [⟨("index.html"), ("<p>hi</p>")⟩] ∧
    bundlerRun none 0 [⟨("index.html"), ("<p>hi</p>")⟩] =
      bundlerRun none 1 [⟨("index.html"), ("<p>hi</p>")⟩] :=
  ⟨bundler_deterministic_amended.1 (some ("stale")) none 0
      [⟨("index.html"), ("<p>hi</p>")⟩],
   bundler_deterministic_amended.2 0 1 [⟨("index.html"), ("<p>hi</p>")⟩]
     (by decide)⟩

/-- Counterexample to C5 as stated: an icon asset is stored
gzip-compressed, and the gzip header embeds the clock reading, so two
runs over the same unchanged directory at clock readings 0 and 1 produce
different bytes. -/
theorem bundler_not_time_independent :
    bundlerRun none 0 [⟨("favicon.ico"), ("A")⟩] ≠
      bundlerRun none 1 [⟨("favicon.ico"), ("A")⟩] := by decide

deriving instance DecidableEq for Except

/-- C4: evaluation at the failing input.  `process_css_file` does build
the spec'd minified quoted-string (raw-literal) declaration — but returns
it inside a `(css_content, filename)` tuple, which the entry point
concatenates with `"\n"`, raising `TypeError`; the bundling run therefore
aborts for every non-bootstrap `.css` file instead of completing, leaving
only the prelude in the output. -/
theorem css_processing_raises_type_error :
    process_css_file (("body \x7b color: red; \x7d")) (("style.css")) =
      (("\nconst char STYLE_CSS[] PROGMEM = R\"(body \x7b color: red; \x7d)\";\n"),
       ("style.css")) ∧
    processFile 0 ⟨("style.css"), ("body \x7b color: red; \x7d")⟩ =
      some (.pair
        ("\nconst char STYLE_CSS[] PROGMEM = R\"(body \x7b color: red; \x7d)\";\n")
        ("style.css"), []) ∧
    pyConcat (.pair
        ("\nconst char STYLE_CSS[] PROGMEM = R\"(body \x7b color: red; \x7d)\";\n")
        ("style.css")) ("\n") = .error .typeError ∧
    bundlerRun (some ("previously generated header")) 0
      [⟨("style.css"), ("body \x7b color: red; \x7d")⟩] =
      (some bundlerPrelude, false) := by decide

lemma bundleFold_stops_at_failure (mtime : Nat) (bad : SrcFile)
    (rest : List SrcFile) (hbad : fileFails mtime bad = true) :
    ∀ (good : List SrcFile) (st : BundleState),
    (∀ f ∈ good, fileFails mtime f = false) →
    (bundleFold mtime st (good ++ bad :: rest)).2 = some PyErr.typeError ∧
    (bundleFold mtime st (good ++ bad :: rest)).1.out =
      st.out ++ concatAll (good.map (writtenText mtime)) := by
  intro good
  induction good with
  | nil =>
    intro st _
    rw [List.nil_append]
    cases hp : processFile mtime bad with
    | none =>
      simp only [fileFails, hp] at hbad
      exact Bool.noConfusion hbad
    | some vr =>
      obtain ⟨v, es⟩ := vr
      cases hv : pyConcat v ("\n") with
      | ok s =>
        simp only [fileFails, hp, hv] at hbad
        exact Bool.noConfusion hbad
      | error e =>
        cases e
        have hstep : bundleStep mtime st bad = .error .typeError := by
          simp only [bundleStep, hp, hv]
        constructor
        · show (match bundleStep mtime st bad with
            | .ok st2 => bundleFold mtime st2 (bad :: rest).tail
            | .error e => (st, some e)).2 = some PyErr.typeError
          rw [hstep]
        · show (match bundleStep mtime st bad with
            | .ok st2 => bundleFold mtime st2 (bad :: rest).tail
            | .error e => (st, some e)).1.out = _
          rw [hstep]
          show st.out = st.out ++ concatAll ([].map (writtenText mtime))
          rw [show concatAll ([].map (writtenText mtime)) = ("") from rfl,
            String.append_empty]
  | cons f gs ih =>
    intro st hgood
    have hf := hgood f (by simp)
    rw [List.cons_append]
    cases hp : processFile mtime f with
    | none =>
      have hstep : bundleStep mtime st f = .ok st := by
        simp only [bundleStep, hp]
      have hrec := ih st (fun g hg => hgood g (by simp [hg]))
      have hw : writtenText mtime f = ("") := by
        simp only [writtenText, hp]
      constructor
      · show (match bundleStep mtime st f with
          | .ok st2 => bundleFold mtime st2 (gs ++ bad :: rest)
          | .error e => (st, some e)).2 = some PyErr.typeError
        rw [hstep]
        exact hrec.1
      · show (match bundleStep mtime st f with
          | .ok st2 => bundleFold mtime st2 (gs ++ bad :: rest)
          | .error e => (st, some e)).1.out = _
        rw [hstep]
        show (bundleFold mtime st (gs ++ bad :: rest)).1.out = _
        rw [hrec.2, List.map_cons, hw]
        show st.out ++ concatAll (gs.map (writtenText mtime)) =
          st.out ++ (("") ++ concatAll (gs.map (writtenText mtime)))
        rw [String.empty_append]
    | some vr =>
      obtain ⟨v, es⟩ := vr
      cases hv : pyConcat v ("\n") with
      | error e =>
        simp only [fileFails, hp, hv] at hf
        exact Bool.noConfusion hf
      | ok s =>
        have hstep : bundleStep mtime st f =
            .ok ⟨st.out ++ s, st.entries ++ es⟩ := by
          simp only [bundleStep, hp, hv]
        have hrec := ih ⟨st.out ++ s, st.entries ++ es⟩
          (fun g hg => hgood g (by simp [hg]))
        have hw : writtenText mtime f = s := by
          simp only [writtenText, hp, hv]
        constructor
        · show (match bundleStep mtime st f with
            | .ok st2 => bundleFold mtime st2 (gs ++ bad :: rest)
            | .error e => (st, some e)).2 = some PyErr.typeError
          rw [hstep]
          exact hrec.1
        · show (match bundleStep mtime st f with
            | .ok st2 => bundleFold mtime st2 (gs ++ bad :: rest)
            | .error e => (st, some e)).1.out = _
          rw [hstep]
          show (bundleFold mtime ⟨st.out ++ s, st.entries ++ es⟩
            (gs ++ bad :: rest)).1.out = _
          rw [hrec.2, List.map_cons, hw]
          show (st.out ++ s) ++ concatAll (gs.map (writtenText mtime)) =
            st.out ++ (s ++ concatAll (gs.map (writtenText mtime)))
          rw [String.append_assoc]

/-- C10: on every invocation the bundler's result is independent of any
previously generated output (it is deleted and the file rewritten from
scratch), and the output is written incrementally per asset; hence if
processing an asset raises mid-run, the run ends unsuccessfully with the
output file holding exactly the prelude plus the text of the assets
processed before the failure — without the index or the accessor
routines, and with the previous output gone. -/
theorem bundler_partial_output_on_error (prev : Option String) (mtime : Nat)
    (good : List SrcFile) (bad : SrcFile) (rest : List SrcFile)
    (hgood : ∀ f ∈ good, fileFails mtime f = false)
    (hbad : fileFails mtime bad = true) :
    bundlerRun prev mtime (good ++ bad :: rest) =
      (some (bundlerPrelude ++ concatAll (good.map (writtenText mtime))),
        false) ∧
    bundlerRun prev mtime (good ++ bad :: rest) =
      bundlerRun none mtime (good ++ bad :: rest) := by
  have h := bundleFold_stops_at_failure mtime bad rest hbad good
    ⟨bundlerPrelude, []⟩ hgood
  constructor
  · simp only [bundlerRun]
    rw [h.1, h.2]
  · rfl

/-- Witness for C10: with stale output `"OLD"` on disk and a directory
whose first entry is a failing non-bootstrap CSS file, the run leaves
exactly the prelude and reports failure. -/
theorem bundler_partial_output_on_error_witness :
    bundlerRun (some ("OLD")) 0
        ([] ++ (⟨("theme.css"), ("p \x7b margin: 0 \x7d")⟩ : SrcFile) :: []) =
      (some (bundlerPrelude ++ concatAll ([].map (writtenText 0))), false) ∧
    bundlerRun (some ("OLD")) 0
        ([] ++ (⟨("theme.css"), ("p \x7b margin: 0 \x7d")⟩ : SrcFile) :: []) =
      bundlerRun none 0
        ([] ++ (⟨("theme.css"), ("p \x7b margin: 0 \x7d")⟩ : SrcFile) :: []) :=
  bundler_partial_output_on_error (some ("OLD")) 0 []
    ⟨("theme.css"), ("p \x7b margin: 0 \x7d")⟩ []
    (by intro f hf; simp at hf) (by decide)

/-! ## CSS minification: normal-form predicates for idempotence -/

/-- Every whitespace character of the list is a plain space. -/
def spacesOnly (l : List Char) : Bool := l.all (fun c => !(isSpaceB c) || c == ' ')

/-- No two adjacent spaces. -/
def noDbl : List Char → Bool
  | [] => true
  | [_] => true
  | a :: b :: rest => !(a == ' ' && b == ' ') && noDbl (b :: rest)

/-- The first character, if any, is not whitespace. -/
def headOk : List Char → Bool
  | [] => true
  | c :: _ => !(isSpaceB c)

/-- The last character, if any, is not whitespace. -/
def lastOk : List Char → Bool
  | [] => true
  | [c] => !(isSpaceB c)
  | _ :: rest => lastOk rest

lemma spacesOnly_tail (a : Char) (l : List Char)
    (h : spacesOnly (a :: l) = true) : spacesOnly l = true := by
  simp only [spacesOnly, List.all_cons, Bool.and_eq_true] at h
  exact h.2

lemma spacesOnly_head (a : Char) (l : List Char)
    (h : spacesOnly (a :: l) = true) : (!(isSpaceB a) || a == ' ') = true := by
  simp only [spacesOnly, List.all_cons, Bool.and_eq_true] at h
  exact h.1

lemma noDbl_tail (a : Char) (l : List Char) (h : noDbl (a :: l) = true) :
    noDbl l = true := by
  cases l with
  | nil => rfl
  | cons b r =>
    simp only [noDbl, Bool.and_eq_true] at h
    exact h.2

lemma lastOk_tail (a : Char) (l : List Char) (hne : l ≠ [])
    (h : lastOk (a :: l) = true) : lastOk l = true := by
  cases l with
  | nil => exact absurd rfl hne
  | cons b r => exact h

lemma collapseGo_spacesOnly : ∀ (l : List Char) (b : Bool),
    spacesOnly (collapseGo b l) = true := by
  intro l
  induction l with
  | nil => intro b; rfl
  | cons c rest ih =>
    intro b
    by_cases hc : isSpaceB c = true
    · cases b with
      | true =>
        simp only [collapseGo, hc, if_true, ite_true]
        exact ih true
      | false =>
        simp only [collapseGo, hc, if_true, ite_true, ite_false,
          Bool.false_eq_true]
        simp only [spacesOnly, List.all_cons, Bool.and_eq_true]
        exact ⟨by decide, ih true⟩
    · simp only [collapseGo, hc, Bool.false_eq_true, ite_false]
      simp only [spacesOnly, List.all_cons, Bool.and_eq_true]
      refine ⟨?_, ih false⟩
      have : isSpaceB c = false := by
        cases hx : isSpaceB c with
        | true => exact absurd hx hc
        | false => rfl
      simp [this]

lemma collapseGo_true_headOk : ∀ l : List Char,
    headOk (collapseGo true l) = true := by
  intro l
  induction l with
  | nil => rfl
  | cons c rest ih =>
    by_cases hc : isSpaceB c = true
    · simp only [collapseGo, hc, if_true, ite_true]
      exact ih
    · simp only [collapseGo, hc, Bool.false_eq_true, ite_false]
      simp only [headOk]
      have : isSpaceB c = false := by
        cases hx : isSpaceB c with
        | true => exact absurd hx hc
        | false => rfl
      simp [this]

lemma nospace_ne_space (x : Char) (h : isSpaceB x = false) :
    (x == ' ') = false := by
  cases hx : x == ' ' with
  | false => rfl
  | true =>
    have : x = ' ' := by
      have := eq_of_beq hx
      exact this
    rw [this] at h
    exact Bool.noConfusion h

lemma collapseGo_noDbl : ∀ (l : List Char) (b : Bool),
    noDbl (collapseGo b l) = true := by
  intro l
  induction l with
  | nil => intro b; rfl
  | cons c rest ih =>
    intro b
    by_cases hc : isSpaceB c = true
    · cases b with
      | true =>
        simp only [collapseGo, hc, if_true, ite_true]
        exact ih true
      | false =>
        simp only [collapseGo, hc, if_true, ite_true, ite_false,
          Bool.false_eq_true]
        cases hX : collapseGo true rest with
        | nil => rfl
        | cons x xs =>
          have hhead := collapseGo_true_headOk rest
          rw [hX] at hhead
          simp only [headOk, Bool.not_eq_true'] at hhead
          have hxs : (x == ' ') = false := nospace_ne_space x hhead
          simp only [noDbl, hxs, Bool.and_false, Bool.not_false,
            Bool.true_and]
          have := ih true
          rw [hX] at this
          exact this
    · simp only [collapseGo, hc, Bool.false_eq_true, ite_false]
      cases hX : collapseGo false rest with
      | nil => rfl
      | cons x xs =>
        simp only [noDbl, Bool.and_eq_true]
        constructor
        · cases hcx : (c == ' ') with
          | false => simp
          | true =>
            have : c = ' ' := eq_of_beq hcx
            rw [this] at hc
            exact absurd (by decide) hc
        · have := ih false
          rw [hX] at this
          exact this

lemma dropWhile_headOk (l : List Char) :
    headOk (l.dropWhile isSpaceB) = true := by
  induction l with
  | nil => rfl
  | cons c rest ih =>
    by_cases hc : isSpaceB c = true
    · rw [List.dropWhile_cons, if_pos hc]
      exact ih
    · have hcf : isSpaceB c = false := by
        cases hx : isSpaceB c with
        | true => exact absurd hx hc
        | false => rfl
      rw [List.dropWhile_cons, if_neg (by simp [hcf])]
      simp [headOk, hcf]

lemma dropWhile_spacesOnly (l : List Char) (h : spacesOnly l = true) :
    spacesOnly (l.dropWhile isSpaceB) = true := by
  induction l with
  | nil => rfl
  | cons c rest ih =>
    rw [List.dropWhile_cons]
    by_cases hc : isSpaceB c = true
    · rw [if_pos hc]
      exact ih (spacesOnly_tail c rest h)
    · rw [if_neg hc]
      exact h

lemma dropWhile_noDbl (l : List Char) (h : noDbl l = true) :
    noDbl (l.dropWhile isSpaceB) = true := by
  induction l with
  | nil => rfl
  | cons c rest ih =>
    rw [List.dropWhile_cons]
    by_cases hc : isSpaceB c = true
    · rw [if_pos hc]
      exact ih (noDbl_tail c rest h)
    · rw [if_neg hc]
      exact h

lemma dropWhile_lastOk (l : List Char) (h : lastOk l = true) :
    lastOk (l.dropWhile isSpaceB) = true := by
  induction l with
  | nil => rfl
  | cons c rest ih =>
    rw [List.dropWhile_cons]
    by_cases hc : isSpaceB c = true
    · rw [if_pos hc]
      refine ih ?_
      cases rest with
      | nil => rfl
      | cons d r2 => exact lastOk_tail c (d :: r2) (by simp) h
    · rw [if_neg hc]
      exact h

lemma rstripWs_lastOk : ∀ l : List Char, lastOk (rstripWs l) = true := by
  intro l
  induction l with
  | nil => rfl
  | cons c rest ih =>
    simp only [rstripWs]
    by_cases hr : rstripWs rest = []
    · rw [if_pos hr]
      by_cases hc : isSpaceB c = true
      · rw [if_pos hc]
        rfl
      · rw [if_neg hc]
        have hcf : isSpaceB c = false := by
          cases hx : isSpaceB c with
          | true => exact absurd hx hc
          | false => rfl
        simp [lastOk, hcf]
    · rw [if_neg hr]
      cases hx : rstripWs rest with
      | nil => exact absurd hx hr
      | cons x xs =>
        show lastOk (x :: xs) = true
        rw [← hx]
        exact ih

lemma rstripWs_shape (c : Char) (rest : List Char) :
    rstripWs (c :: rest) = [] ∨ ∃ r, rstripWs (c :: rest) = c :: r := by
  by_cases hr : rstripWs rest = []
  · by_cases hc : isSpaceB c = true
    · left
      simp only [rstripWs]
      rw [if_pos hr, if_pos hc]
    · right
      refine ⟨[], ?_⟩
      simp only [rstripWs]
      rw [if_pos hr, if_neg hc]
  · right
    refine ⟨rstripWs rest, ?_⟩
    simp only [rstripWs]
    rw [if_neg hr]

lemma rstripWs_headOk (l : List Char) (h : headOk l = true) :
    headOk (rstripWs l) = true := by
  cases l with
  | nil => rfl
  | cons c rest =>
    rcases rstripWs_shape c rest with h1 | ⟨r, h1⟩
    · rw [h1]; rfl
    · rw [h1]
      exact h

lemma rstripWs_spacesOnly : ∀ l : List Char, spacesOnly l = true →
    spacesOnly (rstripWs l) = true := by
  intro l
  induction l with
  | nil => intro _; rfl
  | cons c rest ih =>
    intro h
    simp only [rstripWs]
    by_cases hr : rstripWs rest = []
    · rw [if_pos hr]
      by_cases hc : isSpaceB c = true
      · rw [if_pos hc]
        rfl
      · rw [if_neg hc]
        simp only [spacesOnly, List.all_cons, List.all_nil, Bool.and_true]
        exact spacesOnly_head c rest h
    · rw [if_neg hr]
      simp only [spacesOnly, List.all_cons, Bool.and_eq_true] at h ⊢
      exact ⟨h.1, ih h.2⟩

lemma rstripWs_noDbl : ∀ l : List Char, noDbl l = true →
    noDbl (rstripWs l) = true := by
  intro l
  induction l with
  | nil => intro _; rfl
  | cons c rest ih =>
    intro h
    simp only [rstripWs]
    by_cases hr : rstripWs rest = []
    · rw [if_pos hr]
      by_cases hc : isSpaceB c = true
      · rw [if_pos hc]
        rfl
      · rw [if_neg hc]
        rfl
    · rw [if_neg hr]
      cases rest with
      | nil => exact absurd rfl hr
      | cons d r2 =>
        rcases rstripWs_shape d r2 with h1 | ⟨r, h1⟩
        · exact absurd h1 hr
        · rw [h1]
          simp only [noDbl, Bool.and_eq_true] at h ⊢
          refine ⟨h.1, ?_⟩
          rw [← h1]
          exact ih h.2

lemma rstripWs_cons (c : Char) (rest : List Char) :
    rstripWs (c :: rest) = if rstripWs rest = [] then
      (if isSpaceB c = true then [] else [c]) else c :: rstripWs rest := rfl

lemma collapseGo_cons (b : Bool) (c : Char) (rest : List Char) :
    collapseGo b (c :: rest) = if isSpaceB c then
      (if b then collapseGo true rest else ' ' :: collapseGo true rest)
    else c :: collapseGo false rest := rfl

lemma dropWhile_id_of_headOk (l : List Char) (h : headOk l = true) :
    l.dropWhile isSpaceB = l := by
  cases l with
  | nil => rfl
  | cons c rest =>
    simp only [headOk, Bool.not_eq_true'] at h
    rw [List.dropWhile_cons, if_neg (by simp [h])]

lemma rstripWs_id_of_lastOk : ∀ l : List Char, lastOk l = true →
    rstripWs l = l := by
  intro l
  induction l with
  | nil => intro _; rfl
  | cons c rest ih =>
    intro h
    cases rest with
    | nil =>
      simp only [lastOk, Bool.not_eq_true'] at h
      rw [rstripWs_cons]
      simp [h, show rstripWs ([] : List Char) = [] from rfl]
    | cons d r2 =>
      have hrest : rstripWs (d :: r2) = d :: r2 := ih h
      rw [rstripWs_cons, hrest, if_neg (by simp)]

lemma collapseGo_id : ∀ v : List Char,
    spacesOnly v = true → noDbl v = true → lastOk v = true →
    (collapseGo false v = v ∧
      (headOk v = true → collapseGo true v = v)) := by
  intro v
  induction v with
  | nil => intro _ _ _; exact ⟨rfl, fun _ => rfl⟩
  | cons c rest ih =>
    intro hs hd hl
    have hs' : spacesOnly rest = true := spacesOnly_tail c rest hs
    have hd' : noDbl rest = true := noDbl_tail c rest hd
    by_cases hc : isSpaceB c = true
    · have hc' : c = ' ' := by
        have hh := spacesOnly_head c rest hs
        rw [hc] at hh
        simp only [Bool.not_true, Bool.false_or] at hh
        exact eq_of_beq hh
      subst hc'
      cases rest with
      | nil =>
        simp only [lastOk, Bool.not_eq_true'] at hl
        exact absurd hl (by decide)
      | cons d r2 =>
        have hl' : lastOk (d :: r2) = true := hl
        have hdnospace : isSpaceB d = false := by
          by_cases hdd : isSpaceB d = true
          · have hd2 : d = ' ' := by
              have hh := spacesOnly_head d r2 hs'
              rw [hdd] at hh
              simp only [Bool.not_true, Bool.false_or] at hh
              exact eq_of_beq hh
            subst hd2
            simp [noDbl] at hd
          · cases hx : isSpaceB d with
            | true => exact absurd hx hdd
            | false => rfl
        have hih := ih hs' hd' hl'
        have hhead : headOk (d :: r2) = true := by
          simp [headOk, hdnospace]
        constructor
        · rw [collapseGo_cons, if_pos (show isSpaceB (' ') = true from rfl),
            if_neg (show ¬ (false = true) by decide), hih.2 hhead]
        · intro hhv
          simp [headOk] at hhv
          exact absurd hhv (by decide)
    · have hcf : isSpaceB c = false := by
        cases hx : isSpaceB c with
        | true => exact absurd hx hc
        | false => rfl
      have hrest_id : collapseGo false rest = rest := by
        cases rest with
        | nil => rfl
        | cons d r2 =>
          exact (ih hs' hd' (lastOk_tail c (d :: r2) (by simp) hl)).1
      constructor
      · rw [collapseGo_cons, if_neg (by simp [hcf]), hrest_id]
      · intro _
        rw [collapseGo_cons, if_neg (by simp [hcf]), hrest_id]

lemma stripCollapse_idem (t : List Char) :
    stripWs (collapseGo false (stripWs (collapseGo false t))) =
      stripWs (collapseGo false t) := by
  have hs : spacesOnly (collapseGo false t) = true := collapseGo_spacesOnly t false
  have hd : noDbl (collapseGo false t) = true := collapseGo_noDbl t false
  have hs1 : spacesOnly ((collapseGo false t).dropWhile isSpaceB) = true :=
    dropWhile_spacesOnly _ hs
  have hd1 : noDbl ((collapseGo false t).dropWhile isSpaceB) = true :=
    dropWhile_noDbl _ hd
  have hh1 : headOk ((collapseGo false t).dropWhile isSpaceB) = true :=
    dropWhile_headOk _
  have hs2 : spacesOnly (stripWs (collapseGo false t)) = true :=
    rstripWs_spacesOnly _ hs1
  have hd2 : noDbl (stripWs (collapseGo false t)) = true :=
    rstripWs_noDbl _ hd1
  have hh2 : headOk (stripWs (collapseGo false t)) = true :=
    rstripWs_headOk _ hh1
  have hl2 : lastOk (stripWs (collapseGo false t)) = true :=
    rstripWs_lastOk _
  have hcol : collapseGo false (stripWs (collapseGo false t)) =
      stripWs (collapseGo false t) :=
    (collapseGo_id _ hs2 hd2 hl2).1
  rw [hcol]
  show rstripWs ((stripWs (collapseGo false t)).dropWhile isSpaceB) = _
  rw [dropWhile_id_of_headOk _ hh2, rstripWs_id_of_lastOk _ hl2]

/-- Counterexample to C9 as stated: a single left-to-right substitution
pass of the non-greedy comment regex can *create* a new comment.  For the
CSS text `//*x*/*y*/` one application of the minifier yields `/*y*/`,
whose second application yields the empty string, so applying the
transformation twice differs from applying it once. -/
theorem css_minify_not_idempotent :
    minifyCss (minifyCss ("//*x*/*y*/")) ≠ minifyCss ("//*x*/*y*/") := by
  decide

/-- C9 (amended): the default CSS minification is idempotent on every
input whose single minification is comment-free (in particular on
already-comment-free CSS, whose minification only collapses whitespace):
whenever comment removal fixes the once-minified text, minifying twice
equals minifying once.  The unconditional claim fails because one
substitution pass can create a new comment (see the counterexample). -/
theorem css_minify_idempotent_when_comment_free (s : String)
    (hfree : removeComments (minifyCss s).toList = (minifyCss s).toList) :
    minifyCss (minifyCss s) = minifyCss s := by
  show String.mk (stripWs (collapseGo false
    (removeComments (minifyCss s).toList))) = minifyCss s
  rw [hfree]
  show String.mk (stripWs (collapseGo false
    (stripWs (collapseGo false (removeComments s.toList))))) = _
  rw [stripCollapse_idem]
  rfl

/-- Witness for C9's amended statement at the CSS text `a  /* note */  b`. -/
theorem css_minify_idempotent_when_comment_free_witness :
    removeComments (minifyCss ("a  /* note */  b")).toList =
      (minifyCss ("a  /* note */  b")).toList ∧
    minifyCss (minifyCss ("a  /* note */  b")) =
      minifyCss ("a  /* note */  b") :=
  ⟨by decide,
   css_minify_idempotent_when_comment_free ("a  /* note */  b") (by decide)⟩
